import Mathlib

/-!
Verification of the dynamic-table component (`src/unnamed/part_000`).

The file embeds the state model and the pure state transformations of the
component in Lean:

* an untyped JavaScript-value model (`JSValue`) for the persistence layer
  (`migrateState`, `validateState`, `getInitialState`), which in the source
  operates on arbitrary values obtained from `JSON.parse`;
* a typed model (`Column`, `Row`, `TableState`) for the mutation callbacks
  (`addColumn`, `deleteColumn`, `addRow`, `deleteRow`, `updateCell`,
  `handleDragEnd`), which in the source operate on well-typed state.

JavaScript numbers are modelled as `Int` (the only numbers involved are the
schema version and list indices; no fractional values arise).  A JavaScript
object is modelled as an association list of string keys in insertion order
(JSON parsing and object literals produce unique keys).  A thrown exception
is modelled as `none` in an `Option` result.
-/

/-- Untyped JavaScript values, as produced by `JSON.parse` (plus `undefined`,
which property access on a missing key yields). -/
inductive JSValue where
  | undefined : JSValue
  | null : JSValue
  | bool (b : Bool) : JSValue
  | num (n : Int) : JSValue
  | str (s : String) : JSValue
  | arr (elems : List JSValue) : JSValue
  | obj (fields : List (String × JSValue)) : JSValue

/-- JavaScript truthiness: `undefined`, `null`, `false`, `0` and the empty
string are falsy; every array and object is truthy. -/
def truthy : JSValue → Bool
  | .undefined => false
  | .null => false
  | .bool b => b
  | .num n => n != 0
  | .str s => s != ""
  | .arr _ => true
  | .obj _ => true

/-- The `typeof` operator.  Note `typeof null` is `"object"`, as is
`typeof` of any array. -/
def jsTypeof : JSValue → String
  | .undefined => "undefined"
  | .null => "object"
  | .bool _ => "boolean"
  | .num _ => "number"
  | .str _ => "string"
  | .arr _ => "object"
  | .obj _ => "object"

/-- Property access `v[k]`: the value stored under key `k` of an object,
`undefined` otherwise (in particular on arrays, whose named properties are
not used by this code, and on primitives). -/
def getField : JSValue → String → JSValue
  | .obj fields, k =>
      match fields.find? (fun kv => kv.1 = k) with
      | some kv => kv.2
      | none => .undefined
  | _, _ => .undefined

/-- Whether an object value carries the given key (`"k" in v`). -/
def hasField : JSValue → String → Bool
  | .obj fields, k => fields.any (fun kv => kv.1 = k)
  | _, _ => false

/-- The `Array.isArray` test. -/
def isArray : JSValue → Bool
  | .arr _ => true
  | _ => false

/-- Elements of an array value, `[]` for non-arrays (only applied under an
`isArray` guard). -/
def asArr : JSValue → List JSValue
  | .arr xs => xs
  | _ => []

/-- Test for the `null` value. -/
def isNull : JSValue → Bool
  | .null => true
  | _ => false

/-- Test for a string value (`typeof v === "string"`). -/
def isStr : JSValue → Bool
  | .str _ => true
  | _ => false

/-- Enumerable own entries in the sense of `Object.entries`: the key/value
pairs of an object, the index/element pairs of an array (indices are string
keys).  `Object.entries` throws on `null`; callers guard for that case
separately. -/
def jsEntries : JSValue → List (String × JSValue)
  | .obj fields => fields
  | .arr xs => (xs.enum).map (fun p => (toString p.1, p.2))
  | _ => []

/-- The literal `initialState` object
`\x7b version: CURRENT_VERSION, columns: [], rows: [] \x7d` of the source,
at the untyped level. -/
def initialStateJS : JSValue :=
  .obj [("version", .num 1), ("columns", .arr []), ("rows", .arr [])]

/-- The `migrateState` function of the source: a non-object or falsy input
becomes the initial state; an input whose `version` property is falsy (in
particular absent) is rebuilt from its `columns` and `rows` arrays with
`version = CURRENT_VERSION`; otherwise the input is returned unchanged. -/
def migrateState (state : JSValue) : JSValue :=
  if !truthy state || jsTypeof state != "object" then
    initialStateJS
  else if !truthy (getField state "version") then
    .obj [("version", .num 1),
          ("columns", if isArray (getField state "columns") then
              getField state "columns" else .arr []),
          ("rows", if isArray (getField state "rows") then
              getField state "rows" else .arr [])]
  else
    state

/-- The column predicate of `validateState`:
`col && typeof col.id === "string" && typeof col.name === "string"`. -/
def validCol (col : JSValue) : Bool :=
  truthy col && jsTypeof (getField col "id") == "string"
    && jsTypeof (getField col "name") == "string"

/-- The row predicate of `validateState`:
`row && typeof row.id === "string" && typeof row.cells === "object" &&
Object.entries(row.cells).every(...)`.  When `row.cells` is `null` the
`typeof` guard passes (`typeof null === "object"`) and `Object.entries(null)`
throws a `TypeError`, modelled as `none`. -/
def validRow (row : JSValue) : Option Bool :=
  if !truthy row then some false
  else if jsTypeof (getField row "id") != "string" then some false
  else if jsTypeof (getField row "cells") != "object" then some false
  else if isNull (getField row "cells") then none
  else some ((jsEntries (getField row "cells")).all (fun kv => isStr kv.2))

/-- The `every` combinator over a predicate that may throw: evaluates left to
right, stops at the first `false` or the first throw. -/
def everyM (p : α → Option Bool) : List α → Option Bool
  | [] => some true
  | x :: xs =>
      match p x with
      | some true => everyM p xs
      | some false => some false
      | none => none

/-- The `validateState` function of the source.  `some b` is a normal return
of `b`; `none` is a thrown `TypeError` (reached exactly when a row passes the
earlier checks with `cells` equal to `null`). -/
def validateState (state : JSValue) : Option Bool :=
  if !truthy state || jsTypeof state != "object" then some false
  else if !isArray (getField state "columns")
      || !isArray (getField state "rows") then some false
  else if !((asArr (getField state "columns")).all validCol) then some false
  else everyM validRow (asArr (getField state "rows"))

/-- Content of the `localStorage` slot under the key `"tableState"`:
absent, present but not valid JSON (parse throws), or present and parsed. -/
inductive Stored where
  | absent : Stored
  | malformed : Stored
  | parsed (v : JSValue) : Stored

/-- The `getInitialState` function of the source (browser context, storage
writes succeeding), returning the state handed to the component together with
the storage content afterwards.  A stored blob that parses is migrated and
validated; on success it is returned with storage untouched.  In every other
case — no blob, parse failure, validation returning `false`, or validation
throwing (caught by the surrounding `try`) — control falls through to the
final block, which returns the default state after writing it to storage. -/
def getInitialState : Stored → JSValue × Stored
  | .parsed v =>
      match validateState (migrateState v) with
      | some true => (migrateState v, .parsed v)
      | _ => (initialStateJS, .parsed initialStateJS)
  | _ => (initialStateJS, .parsed initialStateJS)

/-- Structural validity in the words of the spec: the state is an object
whose `columns` and `rows` are sequences, every column has a string `id` and
a string `name`, and every row has a string `id` and a `cells` mapping whose
every key and value is a string.  The mapping is read through JavaScript
`Object.entries` semantics (keys are always strings; an array is viewed
through its index/element entries), matching the environment the check runs
in. -/
def specValid (state : JSValue) : Bool :=
  match state with
  | .obj _ =>
      isArray (getField state "columns") && isArray (getField state "rows")
      && (asArr (getField state "columns")).all (fun c =>
            isStr (getField c "id") && isStr (getField c "name"))
      && (asArr (getField state "rows")).all (fun r =>
            isStr (getField r "id")
            && (jsTypeof (getField r "cells") == "object")
            && !isNull (getField r "cells")
            && (jsEntries (getField r "cells")).all (fun kv => isStr kv.2))
  | _ => false

/-- No element of the `rows` array of the state carries a `cells` property
equal to `null` (the sole input shape on which `validateState` throws). -/
def noNullCells (state : JSValue) : Bool :=
  (asArr (getField state "rows")).all (fun r => !isNull (getField r "cells"))

/-- A column of the table: stable id and display name. -/
structure Column where
  id : String
  name : String
  deriving DecidableEq, Repr

/-- A row of the table: stable id and a cell mapping from column id to text,
modelled as an association list in JavaScript object insertion order (keys
unique by construction). -/
structure Row where
  id : String
  cells : List (String × String)
  deriving DecidableEq, Repr

/-- The aggregate table state. -/
structure TableState where
  version : Int
  columns : List Column
  rows : List Row
  deriving DecidableEq, Repr

/-- The typed `initialState` constant of the source. -/
def initialState : TableState :=
  { version := 1, columns := [], rows := [] }

/-- The warning text set by a rejected `addColumn`. -/
def columnNameWarning : String := "Please provide a column name."

/-- JavaScript `String.prototype.trim`: strip leading and trailing
whitespace (spaces, tabs and line terminators). -/
def jsTrim (s : String) : String :=
  String.mk (((s.toList.dropWhile Char.isWhitespace).reverse.dropWhile
    Char.isWhitespace).reverse)

/-- The `addColumn` callback.  The generated `crypto.randomUUID()` value is
passed in as `freshId`.  Returns the new state together with the warning the
call raises (`none` on success; on success the source also clears the
warning). -/
def addColumn (s : TableState) (name : String) (freshId : String) :
    TableState × Option String :=
  if jsTrim name = "" then
    (s, some columnNameWarning)
  else
    ({ s with columns := s.columns ++ [{ id := freshId, name := jsTrim name }] },
     none)

/-- The `deleteColumn` callback: drops the column with the given id and the
entry under that key from every row's cells (the source removes the key by
rest-destructuring). -/
def deleteColumn (s : TableState) (columnId : String) : TableState :=
  { s with
    columns := s.columns.filter (fun col => col.id != columnId),
    rows := s.rows.map (fun row =>
      { row with cells := row.cells.filter (fun kv => kv.1 != columnId) }) }

/-- The `addRow` callback, with the generated id passed in as `freshId`. -/
def addRow (s : TableState) (freshId : String) : TableState :=
  { s with rows := s.rows ++ [{ id := freshId, cells := [] }] }

/-- The `deleteRow` callback. -/
def deleteRow (s : TableState) (rowId : String) : TableState :=
  { s with rows := s.rows.filter (fun row => row.id != rowId) }

/-- Key update in spread-literal semantics
(`\x7b ...cells, [k]: v \x7d`): an existing key keeps its position and gets
the new value, a new key is appended at the end. -/
def jsObjSet (cells : List (String × String)) (k v : String) :
    List (String × String) :=
  if cells.any (fun kv => kv.1 = k) then
    cells.map (fun kv => if kv.1 = k then (k, v) else kv)
  else
    cells ++ [(k, v)]

/-- The `updateCell` callback: sets `cells[columnId] = value` on the row with
id `rowId`, leaving other rows alone.  No check that `columnId` names an
existing column is performed. -/
def updateCell (s : TableState) (rowId columnId value : String) : TableState :=
  { s with rows := s.rows.map (fun row =>
      if row.id = rowId then
        { row with cells := jsObjSet row.cells columnId value }
      else row) }

/-- JavaScript `Array.prototype.findIndex`: index of the first match, `-1`
when there is none. -/
def jsFindIndex (p : α → Bool) : List α → Int
  | [] => -1
  | x :: xs =>
      if p x then 0
      else if jsFindIndex p xs = -1 then -1 else jsFindIndex p xs + 1

/-- Clamping of a splice position against a length `n`, as
`Array.prototype.splice` performs it: a negative position counts from the
end (bottoming out at `0`), a nonnegative one is capped at `n`. -/
def jsSpliceIndex (n : Nat) (i : Int) : Nat :=
  if i < 0 then (i + n).toNat else min i.toNat n

/-- The `arrayMove` helper of `@dnd-kit/sortable`:

`newArray.splice(to < 0 ? newArray.length + to : to, 0, newArray.splice(from, 1)[0])`

with the insertion position computed against the original length before the
inner `splice` removes one element.  When the inner `splice` removes nothing
(only possible here for `from = -1` on an empty array) the JavaScript code
inserts `undefined` into the array, which a `List` of elements cannot
represent; that case is `none`. -/
def arrayMove (l : List α) (f t : Int) : Option (List α) :=
  if h : jsSpliceIndex l.length f < l.length then
    some ((l.eraseIdx (jsSpliceIndex l.length f)).insertIdx
      (jsSpliceIndex (l.eraseIdx (jsSpliceIndex l.length f)).length
        (if t < 0 then t + l.length else t))
      (l.get ⟨jsSpliceIndex l.length f, h⟩))
  else
    none

/-- The `handleDragEnd` callback with a drop target (`over` non-null),
parametrised by the two element ids.  Equal ids are a no-op; otherwise the
columns are reordered when `activeId` is a column id and the rows are
reordered when it is not, using `findIndex` (|`-1`| on a miss) and
`arrayMove`. -/
def handleDragEnd (s : TableState) (activeId overId : String) :
    Option TableState :=
  if activeId = overId then some s
  else if s.columns.any (fun col => col.id = activeId) then
    (arrayMove s.columns
        (jsFindIndex (fun col => col.id = activeId) s.columns)
        (jsFindIndex (fun col => col.id = overId) s.columns)).map
      (fun cols => { s with columns := cols })
  else
    (arrayMove s.rows
        (jsFindIndex (fun row => row.id = activeId) s.rows)
        (jsFindIndex (fun row => row.id = overId) s.rows)).map
      (fun rows => { s with rows := rows })

/-- The design invariant of the data model: every key of every row's cells
mapping is the id of an existing column. -/
def cellKeysBound (s : TableState) : Bool :=
  s.rows.all (fun row => row.cells.all (fun kv =>
    s.columns.any (fun col => col.id = kv.1)))

theorem jsFindIndex_ge (p : α → Bool) (l : List α) : -1 ≤ jsFindIndex p l := by
  induction l with
  | nil => simp [jsFindIndex]
  | cons x xs ih =>
      simp only [jsFindIndex]
      split
      · omega
      · split
        · omega
        · omega

theorem jsFindIndex_coe_lt (p : α → Bool) (l : List α) (i : Nat)
    (h : jsFindIndex p l = (i : Int)) : i < l.length := by
  induction l generalizing i with
  | nil =>
      rw [jsFindIndex] at h
      omega
  | cons x xs ih =>
      rw [jsFindIndex] at h
      by_cases hp : p x
      · rw [if_pos hp] at h
        have : i = 0 := by omega
        simp [this]
      · rw [if_neg hp] at h
        by_cases hz : jsFindIndex p xs = -1
        · rw [if_pos hz] at h
          omega
        · rw [if_neg hz] at h
          have hge := jsFindIndex_ge p xs
          have hxs : jsFindIndex p xs = ((i - 1 : Nat) : Int) := by omega
          have := ih (i - 1) hxs
          simp only [List.length_cons]
          omega

theorem jsFindIndex_any (p : α → Bool) (l : List α) (i : Nat)
    (h : jsFindIndex p l = (i : Int)) : l.any p = true := by
  induction l generalizing i with
  | nil =>
      rw [jsFindIndex] at h
      omega
  | cons x xs ih =>
      rw [jsFindIndex] at h
      by_cases hp : p x
      · simp [hp]
      · rw [if_neg hp] at h
        by_cases hz : jsFindIndex p xs = -1
        · rw [if_pos hz] at h
          omega
        · rw [if_neg hz] at h
          have hge := jsFindIndex_ge p xs
          have hxs : jsFindIndex p xs = ((i - 1 : Nat) : Int) := by omega
          have := ih (i - 1) hxs
          simp [hp, this]

theorem jsSpliceIndex_le (n : Nat) (i : Int) : jsSpliceIndex n i ≤ n := by
  unfold jsSpliceIndex
  split
  · omega
  · omega

theorem cons_get_eraseIdx_perm :
    ∀ (l : List α) (i : Nat) (h : i < l.length),
      (l.get ⟨i, h⟩ :: l.eraseIdx i).Perm l := by
  intro l
  induction l with
  | nil => intro i h; simp at h
  | cons a l ih =>
      intro i h
      cases i with
      | zero => simp [List.eraseIdx]
      | succ k =>
          have hk : k < l.length := by simpa using h
          have step : ((a :: l).get ⟨k + 1, h⟩ :: (a :: l).eraseIdx (k + 1)).Perm
              (a :: l.get ⟨k, hk⟩ :: l.eraseIdx k) := by
            simp only [List.get_cons_succ, List.eraseIdx_cons_succ]
            exact List.Perm.swap a (l.get ⟨k, hk⟩) (l.eraseIdx k)
          exact step.trans (List.Perm.cons a (ih k hk))

theorem arrayMove_perm (l : List α) (f t : Int) (l2 : List α)
    (h : arrayMove l f t = some l2) : l2.Perm l := by
  unfold arrayMove at h
  split at h
  next hlt =>
      have hx := Option.some.inj h
      subst hx
      have hle : jsSpliceIndex (l.eraseIdx (jsSpliceIndex l.length f)).length
          (if t < 0 then t + l.length else t)
          ≤ (l.eraseIdx (jsSpliceIndex l.length f)).length :=
        jsSpliceIndex_le _ _
      exact (List.perm_insertIdx _ _ hle).trans (cons_get_eraseIdx_perm l _ hlt)
  next => exact absurd h (by simp)

/-- Rebuild of a pre-versioning legacy blob, in the words of the spec: keep
`columns` and `rows` when they are sequences (defaulting each independently
to the empty sequence), stamp the current version. -/
def legacyMigrate (v : JSValue) : JSValue :=
  .obj [("version", .num 1),
        ("columns", if isArray (getField v "columns") then
            getField v "columns" else .arr []),
        ("rows", if isArray (getField v "rows") then
            getField v "rows" else .arr [])]

theorem migrate_of_version_truthy (v : JSValue)
    (h : truthy (getField v "version") = true) : migrateState v = v := by
  cases v with
  | obj fields =>
      rw [migrateState]
      rw [if_neg (by simp [truthy, jsTypeof]), if_neg (by simp [h])]
  | undefined => simp [getField, truthy] at h
  | null => simp [getField, truthy] at h
  | bool b => simp [getField, truthy] at h
  | num n => simp [getField, truthy] at h
  | str s => simp [getField, truthy] at h
  | arr xs => simp [getField, truthy] at h

theorem migrate_of_version_falsy (v : JSValue)
    (h : truthy (getField v "version") = false) :
    migrateState v = legacyMigrate v := by
  cases v with
  | obj fields =>
      rw [migrateState, legacyMigrate]
      rw [if_neg (by simp [truthy, jsTypeof]), if_pos (by simp [h])]
  | undefined => rfl
  | null => rfl
  | bool b => cases b <;> rfl
  | num n =>
      rw [migrateState]
      rw [if_pos (by simp [truthy, jsTypeof])]
      rfl
  | str s =>
      rw [migrateState]
      rw [if_pos (by simp [truthy, jsTypeof])]
      rfl
  | arr xs =>
      rw [migrateState, legacyMigrate]
      rw [if_neg (by simp [truthy, jsTypeof]), if_pos (by simp [getField, truthy])]

theorem getField_legacyMigrate_version (v : JSValue) :
    getField (legacyMigrate v) "version" = .num 1 := by
  rw [legacyMigrate, getField]
  simp [List.find?]

/-- C9: migration is idempotent: for every input `x`,
`migrate(migrate(x)) = migrate(x)`. -/
theorem migrateState_idempotent (v : JSValue) :
    migrateState (migrateState v) = migrateState v := by
  by_cases h : truthy (getField v "version") = true
  · rw [migrate_of_version_truthy v h, migrate_of_version_truthy v h]
  · have hf : truthy (getField v "version") = false := Bool.eq_false_iff.mpr h
    rw [migrate_of_version_falsy v hf]
    exact migrate_of_version_truthy (legacyMigrate v)
      (by rw [getField_legacyMigrate_version]; rfl)

/-- C4 counterexample: the blob with the falsy version stamp `0` has a
`version` field, yet `migrateState` does not return it unchanged — it
rebuilds it with `version = 1` (the source tests `!state.version`,
falsiness, not field presence). -/
theorem migrateState_version_zero_not_passed_through :
    hasField (JSValue.obj [("version", .num 0), ("columns", .arr []),
        ("rows", .arr [])]) "version" = true
    ∧ migrateState (JSValue.obj [("version", .num 0), ("columns", .arr []),
        ("rows", .arr [])])
      ≠ JSValue.obj [("version", .num 0), ("columns", .arr []),
        ("rows", .arr [])] := by
  refine ⟨rfl, fun h => ?_⟩
  exact absurd (congrArg (fun w => truthy (getField w "version")) h) (by decide)

/-- C4 amended: `migrateState` keys on the truthiness of the `version`
property, not its presence.  A raw value whose `version` is truthy is passed
through unchanged; one whose `version` is falsy — absent, or present but
`0`, `null`, `false` or the empty string, or a non-object input — is rebuilt
as a state with `columns = raw.columns` when that is a sequence (else the
empty sequence), `rows = raw.rows` when that is a sequence (else the empty
sequence), and `version = current`. -/
theorem migrateState_spec (v : JSValue) :
    (truthy (getField v "version") = true → migrateState v = v)
    ∧ (truthy (getField v "version") = false →
        migrateState v = legacyMigrate v) :=
  ⟨migrate_of_version_truthy v, migrate_of_version_falsy v⟩

/-- Witness for the amended C4 at concrete inputs: a blob with version `1`
passes through; a blob with version `0` is rebuilt. -/
theorem migrateState_spec_witness :
    migrateState (JSValue.obj [("version", .num 1)])
      = JSValue.obj [("version", .num 1)]
    ∧ migrateState (JSValue.obj [("version", .num 0)])
      = JSValue.obj [("version", .num 1), ("columns", .arr []),
          ("rows", .arr [])] := by
  constructor
  · exact (migrateState_spec (JSValue.obj [("version", .num 1)])).1 (by rfl)
  · rw [(migrateState_spec (JSValue.obj [("version", .num 0)])).2 (by rfl)]
    rfl

/-- C2 counterexample: the blob with version `1` but a non-sequence
`columns` parses, migrates to itself and fails validation, and `load`
overwrites the storage slot with the serialized empty initial state — the
invalid blob does not remain in storage. -/
theorem getInitialState_overwrites_invalid_blob :
    validateState (migrateState (JSValue.obj [("version", .num 1),
        ("columns", .str "x"), ("rows", .arr [])])) = some false
    ∧ (getInitialState (.parsed (JSValue.obj [("version", .num 1),
        ("columns", .str "x"), ("rows", .arr [])]))).2
      ≠ .parsed (JSValue.obj [("version", .num 1),
        ("columns", .str "x"), ("rows", .arr [])]) := by
  refine ⟨rfl, fun h => ?_⟩
  exact absurd (congrArg (fun st =>
    match st with
    | Stored.parsed w => isArray (getField w "columns")
    | _ => false) h) (by decide)

/-- C2 amended: for every persisted blob that parses but fails validation
after migration (validation returning `false` or throwing), `load` returns
the empty initial state and overwrites the storage slot with the serialized
empty initial state (best-effort; the invalid blob is not preserved). -/
theorem getInitialState_invalid_blob (v : JSValue)
    (h : validateState (migrateState v) ≠ some true) :
    getInitialState (.parsed v) = (initialStateJS, .parsed initialStateJS) := by
  cases hv : validateState (migrateState v) with
  | none => simp [getInitialState, hv]
  | some b =>
      cases b with
      | false => simp [getInitialState, hv]
      | true => exact absurd hv h

/-- Witness for the amended C2 at the concrete invalid blob with a string
`columns`. -/
theorem getInitialState_invalid_blob_witness :
    getInitialState (.parsed (JSValue.obj [("version", .num 1),
        ("columns", .str "y"), ("rows", .arr [])]))
      = (initialStateJS, .parsed initialStateJS) :=
  getInitialState_invalid_blob _ (by decide)

/-- C1 counterexample: with columns `[a, b]` and an `overId` absent from
every sequence, the reorder is not a no-op: `findIndex` yields `-1` and
`arrayMove(columns, 0, -1)` moves the active column to the end, producing
`[b, a]`. -/
theorem reorder_unknown_over_not_noop :
    ((TableState.mk 1 [⟨"a", "A"⟩, ⟨"b", "B"⟩] []).columns.all
        (fun col => col.id != "zzz")
      && (TableState.mk 1 [⟨"a", "A"⟩, ⟨"b", "B"⟩] []).rows.all
        (fun row => row.id != "zzz")) = true
    ∧ handleDragEnd (TableState.mk 1 [⟨"a", "A"⟩, ⟨"b", "B"⟩] []) "a" "zzz"
      = some (TableState.mk 1 [⟨"b", "B"⟩, ⟨"a", "A"⟩] []) := by
  constructor
  · decide
  · decide

/-- C1 amended: `deleteRow` with an id absent from the rows is a no-op, and
`deleteColumn` with an id absent from the columns and from every row's cells
mapping is a no-op (with a dangling cells key under that id, `deleteColumn`
additionally strips that key).  `reorder` is a no-op when the two ids are
equal, but not in general when an id is absent: an `overId` unknown to the
chosen sequence moves the active element to the end of that sequence, and an
unknown `activeId` makes the handler reorder the rows from index `-1`. -/
theorem delete_unknown_id_noop (s : TableState) (rid cid a : String)
    (hr : ∀ row ∈ s.rows, row.id ≠ rid)
    (hc : ∀ col ∈ s.columns, col.id ≠ cid)
    (hcells : ∀ row ∈ s.rows, ∀ kv ∈ row.cells, kv.1 ≠ cid) :
    deleteRow s rid = s ∧ deleteColumn s cid = s
    ∧ handleDragEnd s a a = some s := by
  refine ⟨?_, ?_, ?_⟩
  · have hfilter : s.rows.filter (fun row => row.id != rid) = s.rows :=
      List.filter_eq_self.mpr (fun row hrow => by
        simp [bne_iff_ne]
        exact hr row hrow)
    show { s with rows := s.rows.filter (fun row => row.id != rid) } = s
    rw [hfilter]
  · have hcols : s.columns.filter (fun col => col.id != cid) = s.columns :=
      List.filter_eq_self.mpr (fun col hcol => by
        simp [bne_iff_ne]
        exact hc col hcol)
    have hrows : s.rows.map (fun row =>
        { row with cells := row.cells.filter (fun kv => kv.1 != cid) })
        = s.rows := by
      have hmap : ∀ row ∈ s.rows,
          { row with cells := row.cells.filter (fun kv => kv.1 != cid) }
            = row := by
        intro row hrow
        have hkeep : row.cells.filter (fun kv => kv.1 != cid) = row.cells :=
          List.filter_eq_self.mpr (fun kv hkv => by
            simp [bne_iff_ne]
            exact hcells row hrow kv hkv)
        rw [hkeep]
      calc s.rows.map (fun row =>
            { row with cells := row.cells.filter (fun kv => kv.1 != cid) })
          = s.rows.map id := List.map_congr_left hmap
        _ = s.rows := List.map_id s.rows
    show { s with columns := _, rows := _ } = s
    rw [hcols, hrows]
  · simp [handleDragEnd]

/-- Witness for the amended C1 at a concrete state with an unknown row id,
an unknown column id and a self-referential reorder. -/
theorem delete_unknown_id_noop_witness :
    deleteRow (TableState.mk 1 [⟨"a", "A"⟩] [⟨"r", [("a", "1")]⟩]) "nope"
        = TableState.mk 1 [⟨"a", "A"⟩] [⟨"r", [("a", "1")]⟩]
    ∧ deleteColumn (TableState.mk 1 [⟨"a", "A"⟩] [⟨"r", [("a", "1")]⟩]) "gone"
        = TableState.mk 1 [⟨"a", "A"⟩] [⟨"r", [("a", "1")]⟩]
    ∧ handleDragEnd (TableState.mk 1 [⟨"a", "A"⟩] [⟨"r", [("a", "1")]⟩]) "a" "a"
        = some (TableState.mk 1 [⟨"a", "A"⟩] [⟨"r", [("a", "1")]⟩]) :=
  delete_unknown_id_noop _ "nope" "gone" "a" (by decide) (by decide) (by decide)

/-- C5: deleting a column present in the state removes it from `columns`,
removes its key from every row's cells, and keeps the row count and the row
ids in order. -/
theorem deleteColumn_cascade (s : TableState) (c : String)
    (hpresent : s.columns.any (fun col => col.id = c) = true) :
    (∀ row ∈ (deleteColumn s c).rows, ∀ kv ∈ row.cells, kv.1 ≠ c)
    ∧ (∀ col ∈ (deleteColumn s c).columns, col.id ≠ c)
    ∧ (deleteColumn s c).rows.length = s.rows.length
    ∧ (deleteColumn s c).rows.map Row.id = s.rows.map Row.id := by
  refine ⟨?_, ?_, ?_, ?_⟩
  · intro row hrow kv hkv
    simp only [deleteColumn, List.mem_map] at hrow
    obtain ⟨row0, _, hrow0⟩ := hrow
    rw [← hrow0] at hkv
    simp only [List.mem_filter] at hkv
    exact bne_iff_ne.mp hkv.2
  · intro col hcol
    simp only [deleteColumn, List.mem_filter] at hcol
    exact bne_iff_ne.mp hcol.2
  · simp [deleteColumn]
  · simp only [deleteColumn, List.map_map]
    rfl

/-- Witness for C5 at the two-column one-row state of Scenario B. -/
theorem deleteColumn_cascade_witness :
    (deleteColumn (TableState.mk 1 [⟨"a", "A"⟩, ⟨"b", "B"⟩]
        [⟨"r", [("a", "1"), ("b", "2")]⟩]) "a").rows.map Row.id
      = (TableState.mk 1 [⟨"a", "A"⟩, ⟨"b", "B"⟩]
        [⟨"r", [("a", "1"), ("b", "2")]⟩]).rows.map Row.id :=
  (deleteColumn_cascade _ "a" (by decide)).2.2.2

/-- C8: `addColumn` with a name whose trim is empty leaves the state
unchanged and raises the user-facing warning; with a non-empty trimmed name
it appends exactly one column carrying the supplied fresh id and the trimmed
name, leaving the existing columns and all rows (and the version) as they
were. -/
theorem addColumn_spec (s : TableState) (name freshId : String) :
    (jsTrim name = "" → addColumn s name freshId = (s, some columnNameWarning))
    ∧ (jsTrim name ≠ "" →
        addColumn s name freshId
          = ({ s with columns :=
                s.columns ++ [{ id := freshId, name := jsTrim name }] }, none)) := by
  constructor
  · intro h
    rw [addColumn, if_pos h]
  · intro h
    rw [addColumn, if_neg h]

/-- Witness for C8: Scenario A on the empty state, with a generated id
passed in. -/
theorem addColumn_spec_witness :
    addColumn initialState "Name" "uuid-1"
      = (TableState.mk 1 [⟨"uuid-1", "Name"⟩] [], none)
    ∧ addColumn initialState "  " "uuid-2"
      = (initialState, some columnNameWarning) := by
  constructor
  · rw [(addColumn_spec initialState "Name" "uuid-1").2 (by decide)]
    rfl
  · exact (addColumn_spec initialState "  " "uuid-2").1 (by decide)

/-- C10: every mutation preserves the `version` field of the state:
`addColumn` (both branches), `deleteColumn`, `addRow`, `deleteRow`,
`updateCell`, and `reorder` whenever it produces a state. -/
theorem mutations_preserve_version (s : TableState) :
    (∀ name freshId, (addColumn s name freshId).1.version = s.version)
    ∧ (∀ cid, (deleteColumn s cid).version = s.version)
    ∧ (∀ freshId, (addRow s freshId).version = s.version)
    ∧ (∀ rid, (deleteRow s rid).version = s.version)
    ∧ (∀ rid cid v, (updateCell s rid cid v).version = s.version)
    ∧ (∀ a o s2, handleDragEnd s a o = some s2 → s2.version = s.version) := by
  refine ⟨?_, fun _ => rfl, fun _ => rfl, fun _ => rfl, fun _ _ _ => rfl, ?_⟩
  · intro name freshId
    rw [addColumn]
    split
    · rfl
    · rfl
  · intro a o s2 h
    rw [handleDragEnd] at h
    split at h
    · exact (Option.some.inj h) ▸ rfl
    · split at h
      · obtain ⟨cols, _, hs2⟩ := Option.map_eq_some'.mp h
        rw [← hs2]
      · obtain ⟨rows2, _, hs2⟩ := Option.map_eq_some'.mp h
        rw [← hs2]

/-- Witness for C10, exercising the reorder implication at a concrete
two-row state. -/
theorem mutations_preserve_version_witness :
    ∃ s2, handleDragEnd (TableState.mk 1 [] [⟨"p", []⟩, ⟨"q", []⟩]) "p" "q"
        = some s2
      ∧ s2.version = (TableState.mk 1 [] [⟨"p", []⟩, ⟨"q", []⟩]).version :=
  ⟨TableState.mk 1 [] [⟨"q", []⟩, ⟨"p", []⟩],
    by decide,
    (mutations_preserve_version _).2.2.2.2.2 "p" "q" _ (by decide)⟩

theorem arrayMove_valid (l : List α) (i j : Nat) (hi : i < l.length)
    (hj : j < l.length) :
    arrayMove l (i : Int) (j : Int)
      = some ((l.eraseIdx i).insertIdx j (l.get ⟨i, hi⟩)) := by
  have hstart : jsSpliceIndex l.length (i : Int) = i := by
    rw [jsSpliceIndex, if_neg (by omega)]
    simp
    omega
  have hlen : (l.eraseIdx i).length = l.length - 1 := by
    rw [List.length_eraseIdx, if_pos hi]
  have hdest : jsSpliceIndex (l.eraseIdx i).length
      (if (j : Int) < 0 then (j : Int) + l.length else (j : Int)) = j := by
    rw [if_neg (by omega), jsSpliceIndex, if_neg (by omega), hlen]
    simp
    omega
  rw [arrayMove]
  simp only [hstart, hdest]
  rw [dif_pos hi]

/-- C6: with `activeId` and `overId` two distinct ids present in the chosen
sequence, `reorder` removes the active element from its index and reinserts
it at the index of the over element (single-element list move): the columns
are moved when `activeId` is a column id, the rows otherwise; with equal ids
the state is unchanged. -/
theorem reorder_moves_active_to_over (s : TableState) (a o : String)
    (hne : a ≠ o) :
    (∀ (i j : Nat),
      jsFindIndex (fun col => col.id = a) s.columns = (i : Int) →
      jsFindIndex (fun col => col.id = o) s.columns = (j : Int) →
      ∃ hlt : i < s.columns.length,
        handleDragEnd s a o = some
          ({ s with columns :=
              (s.columns.eraseIdx i).insertIdx j (s.columns.get ⟨i, hlt⟩) }))
    ∧ (∀ (i j : Nat),
      s.columns.all (fun col => !(col.id = a)) = true →
      jsFindIndex (fun row => row.id = a) s.rows = (i : Int) →
      jsFindIndex (fun row => row.id = o) s.rows = (j : Int) →
      ∃ hlt : i < s.rows.length,
        handleDragEnd s a o = some
          ({ s with rows :=
              (s.rows.eraseIdx i).insertIdx j (s.rows.get ⟨i, hlt⟩) }))
    ∧ handleDragEnd s a a = some s := by
  refine ⟨?_, ?_, by simp [handleDragEnd]⟩
  · intro i j hi hj
    have hlt := jsFindIndex_coe_lt _ _ _ hi
    have hltj := jsFindIndex_coe_lt _ _ _ hj
    refine ⟨hlt, ?_⟩
    rw [handleDragEnd, if_neg hne,
      if_pos (jsFindIndex_any _ _ _ hi), hi, hj,
      arrayMove_valid s.columns i j hlt hltj]
    rfl
  · intro i j hall hi hj
    have hlt := jsFindIndex_coe_lt _ _ _ hi
    have hltj := jsFindIndex_coe_lt _ _ _ hj
    refine ⟨hlt, ?_⟩
    have hnone : s.columns.any (fun col => col.id = a) = false := by
      rw [← Bool.not_eq_true]
      intro hcontra
      obtain ⟨col, hcol, hcolid⟩ := List.any_eq_true.mp hcontra
      have hres := List.all_eq_true.mp hall col hcol
      simp at hres hcolid
      exact hres hcolid
    rw [handleDragEnd, if_neg hne, if_neg (by simp [hnone]), hi, hj,
      arrayMove_valid s.rows i j hlt hltj]
    rfl

/-- Witness for C6: Scenario C, columns `[A, B, C]` with active `C` and over
`A` yield `[C, A, B]`. -/
theorem reorder_moves_active_to_over_witness :
    handleDragEnd (TableState.mk 1 [⟨"a", "A"⟩, ⟨"b", "B"⟩, ⟨"c", "C"⟩] [])
        "c" "a"
      = some (TableState.mk 1 [⟨"c", "C"⟩, ⟨"a", "A"⟩, ⟨"b", "B"⟩] []) := by
  obtain ⟨hlt, h⟩ := (reorder_moves_active_to_over
    (TableState.mk 1 [⟨"a", "A"⟩, ⟨"b", "B"⟩, ⟨"c", "C"⟩] []) "c" "a"
    (by decide)).1 2 0 (by decide) (by decide)
  rw [h]
  rfl

theorem cellKeysBound_iff (s : TableState) :
    cellKeysBound s = true
      ↔ ∀ row ∈ s.rows, ∀ kv ∈ row.cells,
          ∃ col ∈ s.columns, col.id = kv.1 := by
  simp [cellKeysBound, List.all_eq_true, List.any_eq_true]

theorem mem_jsObjSet (cells : List (String × String)) (k v : String)
    (kv : String × String) (h : kv ∈ jsObjSet cells k v) :
    kv.1 = k ∨ kv ∈ cells := by
  rw [jsObjSet] at h
  split at h
  · obtain ⟨kv0, hkv0, hEq⟩ := List.mem_map.mp h
    by_cases hk : kv0.1 = k
    · rw [if_pos hk] at hEq
      left
      rw [← hEq]
    · rw [if_neg hk] at hEq
      right
      rw [← hEq]
      exact hkv0
  · rcases List.mem_append.mp h with hin | hnew
    · right
      exact hin
    · left
      simp at hnew
      rw [hnew]

/-- C7 counterexample: `updateCell` performs no check on `columnId`; on a
state satisfying the invariant it can introduce a cells key naming no
existing column. -/
theorem updateCell_breaks_cell_key_invariant :
    cellKeysBound (TableState.mk 1 [] [⟨"r", []⟩]) = true
    ∧ cellKeysBound
        (updateCell (TableState.mk 1 [] [⟨"r", []⟩]) "r" "ghost" "v")
      = false := by
  constructor
  · decide
  · decide

/-- C7 amended: starting from a state in which every cells key names an
existing column, `addColumn`, `deleteColumn`, `addRow`, `deleteRow` and
`reorder` return a state with the same property, and so does `updateCell`
provided `columnId` names an existing column; `updateCell` with an unknown
`columnId` (on a row that exists) breaks the invariant by creating a
dangling key. -/
theorem mutations_preserve_cell_keys (s : TableState)
    (hinv : cellKeysBound s = true) :
    (∀ name freshId, cellKeysBound (addColumn s name freshId).1 = true)
    ∧ (∀ cid, cellKeysBound (deleteColumn s cid) = true)
    ∧ (∀ freshId, cellKeysBound (addRow s freshId) = true)
    ∧ (∀ rid, cellKeysBound (deleteRow s rid) = true)
    ∧ (∀ rid cid v, s.columns.any (fun col => col.id = cid) = true →
        cellKeysBound (updateCell s rid cid v) = true)
    ∧ (∀ a o s2, handleDragEnd s a o = some s2 →
        cellKeysBound s2 = true) := by
  rw [cellKeysBound_iff] at hinv
  refine ⟨?_, ?_, ?_, ?_, ?_, ?_⟩
  · intro name freshId
    rw [addColumn]
    split
    · rw [cellKeysBound_iff]
      exact hinv
    · rw [cellKeysBound_iff]
      intro row hrow kv hkv
      obtain ⟨col, hcol, hid⟩ := hinv row hrow kv hkv
      exact ⟨col, List.mem_append_left _ hcol, hid⟩
  · intro cid
    rw [cellKeysBound_iff]
    intro row hrow kv hkv
    simp only [deleteColumn, List.mem_map] at hrow
    obtain ⟨row0, hrow0, hmk⟩ := hrow
    rw [← hmk] at hkv
    simp only [List.mem_filter] at hkv
    obtain ⟨col, hcol, hid⟩ := hinv row0 hrow0 kv hkv.1
    refine ⟨col, ?_, hid⟩
    simp only [deleteColumn, List.mem_filter]
    refine ⟨hcol, ?_⟩
    rw [bne_iff_ne, hid]
    exact bne_iff_ne.mp hkv.2
  · intro freshId
    rw [cellKeysBound_iff]
    intro row hrow kv hkv
    rcases List.mem_append.mp hrow with hold | hnew
    · exact hinv row hold kv hkv
    · simp at hnew
      rw [hnew] at hkv
      simp at hkv
  · intro rid
    rw [cellKeysBound_iff]
    intro row hrow kv hkv
    exact hinv row (List.mem_of_mem_filter hrow) kv hkv
  · intro rid cid v hcid
    rw [cellKeysBound_iff]
    intro row hrow kv hkv
    simp only [updateCell, List.mem_map] at hrow
    obtain ⟨row0, hrow0, hmk⟩ := hrow
    by_cases hr : row0.id = rid
    · rw [if_pos hr] at hmk
      rw [← hmk] at hkv
      rcases mem_jsObjSet row0.cells cid v kv hkv with hk | hold
      · obtain ⟨col, hcol, hid⟩ := List.any_eq_true.mp hcid
        simp at hid
        exact ⟨col, hcol, by rw [hid, hk]⟩
      · exact hinv row0 hrow0 kv hold
    · rw [if_neg hr] at hmk
      rw [← hmk] at hkv
      exact hinv row0 hrow0 kv hkv
  · intro a o s2 h
    rw [handleDragEnd] at h
    split at h
    · rw [← Option.some.inj h, cellKeysBound_iff]
      exact hinv
    · split at h
      · obtain ⟨cols, hcols, hs2⟩ := Option.map_eq_some'.mp h
        have hperm := arrayMove_perm _ _ _ _ hcols
        rw [← hs2, cellKeysBound_iff]
        intro row hrow kv hkv
        obtain ⟨col, hcol, hid⟩ := hinv row hrow kv hkv
        exact ⟨col, hperm.mem_iff.mpr hcol, hid⟩
      · obtain ⟨rows2, hrows2, hs2⟩ := Option.map_eq_some'.mp h
        have hperm := arrayMove_perm _ _ _ _ hrows2
        rw [← hs2, cellKeysBound_iff]
        intro row hrow kv hkv
        exact hinv row (hperm.mem_iff.mp hrow) kv hkv

/-- Witness for the amended C7: a cell update under an existing column id on
a concrete state keeps the invariant. -/
theorem mutations_preserve_cell_keys_witness :
    cellKeysBound (updateCell
        (TableState.mk 1 [⟨"a", "A"⟩] [⟨"r", []⟩]) "r" "a" "v") = true :=
  (mutations_preserve_cell_keys
    (TableState.mk 1 [⟨"a", "A"⟩] [⟨"r", []⟩])
    (by decide)).2.2.2.2.1 "r" "a" "v" (by decide)

theorem jsTypeof_string_eq_isStr (x : JSValue) :
    (jsTypeof x == "string") = isStr x := by
  cases x <;> rfl

theorem validCol_eq (c : JSValue) :
    validCol c = (isStr (getField c "id") && isStr (getField c "name")) := by
  cases c with
  | obj fields =>
      rw [validCol]
      simp [truthy, jsTypeof_string_eq_isStr]
  | undefined => rfl
  | null => rfl
  | bool b => simp [validCol, getField, jsTypeof, isStr]
  | num n => simp [validCol, getField, jsTypeof, isStr]
  | str s => simp [validCol, getField, jsTypeof, isStr]
  | arr xs => rfl

theorem all_validCol_eq (l : List JSValue) :
    l.all validCol
      = l.all (fun c => isStr (getField c "id") && isStr (getField c "name")) := by
  induction l with
  | nil => rfl
  | cons c l ih => simp [List.all_cons, ih, validCol_eq]

theorem validRow_some_true_iff (r : JSValue) :
    validRow r = some true
      ↔ (isStr (getField r "id")
          && (jsTypeof (getField r "cells") == "object")
          && !isNull (getField r "cells")
          && (jsEntries (getField r "cells")).all (fun kv => isStr kv.2))
        = true := by
  cases r with
  | obj fields =>
      rw [validRow]
      rw [if_neg (by simp [truthy])]
      by_cases hid : jsTypeof (getField (JSValue.obj fields) "id") = "string"
      · rw [if_neg (by simp [hid])]
        by_cases hcell :
            jsTypeof (getField (JSValue.obj fields) "cells") = "object"
        · rw [if_neg (by simp [hcell])]
          by_cases hnull : isNull (getField (JSValue.obj fields) "cells") = true
          · rw [if_pos hnull]
            rw [← jsTypeof_string_eq_isStr]
            simp [hid, hcell, hnull]
          · rw [if_neg hnull]
            rw [← jsTypeof_string_eq_isStr]
            simp [hid, hcell, hnull]
        · rw [if_pos (by simp [hcell])]
          simp [hcell]
      · rw [if_pos (by simp [hid])]
        rw [← jsTypeof_string_eq_isStr]
        simp [hid]
  | undefined => simp [validRow, getField, jsTypeof, isStr, truthy]
  | null => simp [validRow, getField, jsTypeof, isStr, truthy]
  | bool b => simp [validRow, getField, jsTypeof, isStr, truthy]
  | num n => simp [validRow, getField, jsTypeof, isStr, truthy]
  | str s => simp [validRow, getField, jsTypeof, isStr, truthy]
  | arr xs => simp [validRow, getField, jsTypeof, isStr, truthy]

theorem validRow_ne_none (r : JSValue)
    (h : isNull (getField r "cells") = false) : validRow r ≠ none := by
  rw [validRow]
  split
  · simp
  · split
    · simp
    · split
      · simp
      · split
        · next hnull => rw [h] at hnull; exact absurd hnull (by simp)
        · simp

theorem everyM_some_true_iff (p : α → Option Bool) (l : List α) :
    everyM p l = some true ↔ ∀ x ∈ l, p x = some true := by
  induction l with
  | nil => simp [everyM]
  | cons x xs ih =>
      rw [everyM]
      cases hx : p x with
      | none => simp [hx]
      | some b =>
          cases b with
          | true => simp [hx, ih]
          | false => simp [hx]

theorem everyM_isSome (p : α → Option Bool) (l : List α)
    (h : ∀ x ∈ l, p x ≠ none) : (everyM p l).isSome = true := by
  induction l with
  | nil => rfl
  | cons x xs ih =>
      rw [everyM]
      cases hx : p x with
      | none => exact absurd hx (h x (by simp))
      | some b =>
          cases b with
          | true => exact ih (fun y hy => h y (by simp [hy]))
          | false => rfl

/-- C3 counterexample: on the structurally invalid state whose single row
has `cells: null`, `validateState` does not return `false` — it throws a
`TypeError` (modelled as `none`): `typeof null === "object"` passes the
guard and `Object.entries(null)` throws. -/
theorem validateState_throws_on_null_cells :
    validateState (JSValue.obj [("columns", .arr []),
        ("rows", .arr [JSValue.obj [("id", .str "r"), ("cells", .null)]])])
      = none
    ∧ specValid (JSValue.obj [("columns", .arr []),
        ("rows", .arr [JSValue.obj [("id", .str "r"), ("cells", .null)]])])
      = false := by
  constructor
  · rfl
  · rfl

/-- C3 amended: `validateState` returns `true` exactly on the structurally
valid states, so it returns `false` on every violation that it finishes on;
but it is not total: when a row passing the earlier checks has `cells` equal
to `null` it throws a `TypeError` instead of returning `false`.  On every
input none of whose rows carries a `null` cells field it terminates normally
with a boolean. -/
theorem validateState_characterization (v : JSValue) :
    (validateState v = some true ↔ specValid v = true)
    ∧ (noNullCells v = true → (validateState v).isSome = true) := by
  constructor
  · cases v with
    | obj fields =>
        rw [validateState, specValid]
        rw [if_neg (by simp [truthy, jsTypeof])]
        by_cases hca : isArray (getField (JSValue.obj fields) "columns") = true
        · by_cases hra : isArray (getField (JSValue.obj fields) "rows") = true
          · rw [if_neg (by simp [hca, hra])]
            by_cases hcols :
                (asArr (getField (JSValue.obj fields) "columns")).all validCol
                  = true
            · rw [if_neg (by simp [hcols])]
              rw [everyM_some_true_iff]
              rw [all_validCol_eq] at hcols
              simp only [hca, hra, hcols, Bool.true_and, List.all_eq_true]
              constructor
              · intro h r hr
                exact (validRow_some_true_iff r).mp (h r hr)
              · intro h r hr
                exact (validRow_some_true_iff r).mpr (h r hr)
            · rw [if_pos (by simp [hcols])]
              rw [all_validCol_eq] at hcols
              constructor
              · intro h
                simp at h
              · intro h
                exfalso
                simp only [Bool.and_eq_true] at h
                exact hcols h.1.2
          · rw [if_pos (by simp [hra])]
            simp [hra]
        · rw [if_pos (by simp [hca])]
          simp [hca]
    | undefined => simp [validateState, specValid, truthy]
    | null => simp [validateState, specValid, truthy]
    | bool b => simp [validateState, specValid, jsTypeof]
    | num n => simp [validateState, specValid, jsTypeof]
    | str s => simp [validateState, specValid, jsTypeof]
    | arr xs => simp [validateState, specValid, getField, isArray]
  · intro hnn
    rw [validateState]
    split
    · rfl
    · split
      · rfl
      · split
        · rfl
        · apply everyM_isSome
          intro r hr
          apply validRow_ne_none
          have hb := List.all_eq_true.mp hnn r hr
          simpa using hb

/-- Witness for the amended C3: the empty initial blob has no null cells
field and validation terminates on it. -/
theorem validateState_characterization_witness :
    (validateState initialStateJS).isSome = true :=
  (validateState_characterization initialStateJS).2 (by decide)
